import Mathlib

/-!
Verification of the LAF (Limitless Audio Format) playback core found in
`examples/allafplay.cpp`: the format parser (`LoadLAF`), the chunk reader
(`LafStream::readChunk`), the track demultiplexer (`LafStream::prepareTrack`
/ `LafStream::copySamples`), the position decoder
(`LafStream::convertPositions`) and the position-update part of the
playback scheduler (`PlayLAF`).

The embedding is shallow: machine integers are modelled as `Nat` with an
explicit `% 2^64` where the C++ unsigned arithmetic can wrap, byte streams
are `List Nat` (each element a byte value `< 256`), sample data is `List Int`
(one element per sample, after the byte-to-sample reinterpretation the C++
code performs with `reinterpret_cast` on the interleaved buffer), and the
float values appearing in track metadata are modelled by their IEEE-754
single-precision bit patterns, since the parser only ever inspects them
through `x != x` (NaN test), `== 0.0` (zero test, accepting both signs) and
`std::isfinite` — all of which are pure bit-pattern predicates.
-/

namespace Allafplay

/-- Width of the C++ `uint64_t` / 64-bit `size_t` arithmetic. -/
def U64 : ℕ := 2 ^ 64

/-- `enum class Quality : uint8_t { s8, s16, f32, s24 }`. -/
inductive Quality where
  | s8 | s16 | f32 | s24
deriving DecidableEq, Repr

/-- `enum class Mode : bool { Channels, Objects }`. -/
inductive Mode where
  | channels | objects
deriving DecidableEq, Repr

/-- `BytesFromQuality`: bytes per sample for each quality. -/
def BytesFromQuality : Quality → ℕ
  | .s8 => 1
  | .s16 => 2
  | .f32 => 4
  | .s24 => 3

/-- `FramesPerPos = 48`: sample frames per full set of positions. -/
def FramesPerPos : ℕ := 48

/-! ## Chunk reader (`LafStream::readChunk`, lines 261-280)

Only the sample-counting state matters for the counter claims: the member
`mCurrentSample` (uint64) advances by
`numsamples = min(mSampleRate, mSampleCount - mCurrentSample)`
(uint64 arithmetic, so the subtraction wraps modulo `2^64`) and
`numsamples` is returned. -/

/-- The value `readChunk` returns: `min(uint64{mSampleRate},
mSampleCount - mCurrentSample)` with wrapping uint64 subtraction
(`T` and `c` are uint64 values, hence `< 2^64`). -/
def readChunkAmount (R T c : ℕ) : ℕ := min R ((T + U64 - c) % U64)

/-- The updated `mCurrentSample` after a `readChunk` call
(`mCurrentSample += numsamples`, uint64). -/
def readChunkNext (R T c : ℕ) : ℕ := (c + readChunkAmount R T c) % U64

/-- `isAtEnd`: `mCurrentSample >= mSampleCount`. -/
def isAtEnd (T c : ℕ) : Prop := c ≥ T

/-- `mCurrentSample` after `n` successive `readChunk` calls starting from a
freshly loaded stream (`mCurrentSample = 0`). -/
def consumedAfter (R T : ℕ) : ℕ → ℕ
  | 0 => 0
  | n + 1 => readChunkNext R T (consumedAfter R T n)

/-- Number of `readChunk` calls needed to consume a stream of `T` samples at
rate `R`: the ceiling of `T / R`. -/
def numChunkCalls (R T : ℕ) : ℕ := (T + R - 1) / R

/-! ## Track demultiplexer (`LafStream::prepareTrack` / `copySamples`,
lines 310-369)

The enabled-track bitmap `mEnabledTracks` is a list of byte values
(each `< 256`).  Sample data is modelled one `Int` per sample — the
byte-to-sample reinterpretation (`reinterpret_cast<const T*>`) and the byte
width of a sample are tracked separately through `BytesFromQuality`. -/

/-- Structural helper for `popcount` (fuel-indexed so that it reduces in the
kernel; the fuel is always at least the argument). -/
def popcountAux : ℕ → ℕ → ℕ
  | 0, _ => 0
  | fuel + 1, m => if m = 0 then 0 else m % 2 + popcountAux fuel (m / 2)

/-- `al::popcount`: number of set bits. -/
def popcount (n : ℕ) : ℕ := popcountAux n n

/-- Whether track `t`'s bit is set in the bitmap:
`mEnabledTracks[trackidx>>3] & (1 << (trackidx&7))`. -/
def trackEnabled (bitmap : List ℕ) (t : ℕ) : Bool :=
  Nat.testBit (bitmap.getD (t / 8) 0) (t % 8)

/-- `mNumEnabled`: the sum of the popcounts of all bitmap bytes
(`std::accumulate` over `mEnabledTracks` in `readChunk`). -/
def numEnabled (bitmap : List ℕ) : ℕ := (bitmap.map popcount).sum

/-- The enabled-track ordinal computed inside `prepareTrack`: the popcount of
the bitmap bytes before the track's byte, plus the popcount of the track's
byte masked to the bits below the track
(`popcount(mEnabledTracks[trackidx>>3] & ((1<<(trackidx&7))-1))`). -/
def enabledIdx (bitmap : List ℕ) (t : ℕ) : ℕ :=
  ((bitmap.take (t / 8)).map popcount).sum +
    popcount (bitmap.getD (t / 8) 0 % 2 ^ (t % 8))

/-- The number of enabled tracks with index strictly below `t` — the rank the
claim describes. -/
def countEnabledBelow (bitmap : List ℕ) (t : ℕ) : ℕ :=
  ((List.range t).filter (fun u => trackEnabled bitmap u)).length

/-- The error thrown for 24-bit samples
(`throw std::runtime_error{"24-bit samples not supported"}`). -/
inductive RuntimeError where
  | unsupported24
deriving DecidableEq, Repr

/-- `LafStream::copySamples<T>`: strided gather — the `k`-th output sample is
`src[k*step + idx]` (the input pointer starts at the chunk base and advances
by `step` after each read of offset `idx`). -/
def copySamples (src : List ℤ) (idx step count : ℕ) : List ℤ :=
  (List.range count).map (fun k => src.getD (k * step + idx) 0)

/-- The byte value `prepareTrack` fills a disabled track's line with:
`char(0x80)` for 8-bit samples, `char{}` (zero) otherwise. -/
def silenceFill (q : Quality) : ℤ := if q = Quality.s8 then 0x80 else 0

/-- `LafStream::prepareTrack`: for the first `todo = min(mSampleRate, count)`
samples, either gather the enabled track's samples out of the interleaved
chunk at its enabled-track ordinal (stride `mNumEnabled`), throw for 24-bit
quality, or produce silence for a disabled track.  The returned span is the
first `todo` samples of the mono line (the line holds `mSampleRate` samples,
fully refilled with silence in the disabled case). -/
def prepareTrack (q : Quality) (R : ℕ) (bitmap : List ℕ) (chunk : List ℤ)
    (t count : ℕ) : Except RuntimeError (List ℤ) :=
  let todo := min R count
  if trackEnabled bitmap t then
    match q with
    | Quality.s24 => Except.error RuntimeError.unsupported24
    | _ => Except.ok (copySamples chunk (enabledIdx bitmap t)
        (numEnabled bitmap) todo)
  else
    Except.ok ((List.replicate R (silenceFill q)).take todo)

/-- Interleaving `tracks.length` per-track sequences over `L` frames, in
track order: sample `m` of the block belongs to track `m % N` at frame
`m / N`. -/
def interleave (tracks : List (List ℤ)) (L : ℕ) : List ℤ :=
  (List.range (L * tracks.length)).map
    (fun m => (tracks.getD (m % tracks.length) []).getD (m / tracks.length) 0)

/-! ## Position decoder (`LafStream::convertPositions`, lines 282-308)

Samples are modelled as rationals holding the value the C++ code computes
(the IEEE-754 rounding of the divisions is idealized as exact division —
only the structure of which elements are written matters for the claims
below).  `std::transform` writes one destination element per source element,
leaving the tail of the destination untouched. -/

/-- Write `vals` over the front of `dst`, keeping `dst`'s tail. -/
def writePrefix (dst vals : List ℚ) : List ℚ := vals ++ dst.drop vals.length

/-- `LafStream::convertPositions`: element-for-element conversion of raw
position samples into the destination float span — `int8` divides by 127,
`int16` by 32767, `float32` copies.  The `Quality::s24` case is a bare
`break`: the function returns with the destination unchanged. -/
def convertPositions (q : Quality) (dst : List ℚ) (src : List ℚ) : List ℚ :=
  match q with
  | Quality.s8 => writePrefix dst (src.map (fun v => v / 127))
  | Quality.s16 => writePrefix dst (src.map (fun v => v / 32767))
  | Quality.f32 => writePrefix dst src
  | Quality.s24 => dst

/-- `FormatFromQuality`: buffer format for each quality; throws
`runtime_error` for 24-bit samples. -/
def FormatFromQuality (q : Quality) : Except RuntimeError ℕ :=
  match q with
  | Quality.s8 => Except.ok 0x1100
  | Quality.s16 => Except.ok 0x1101
  | Quality.f32 => Except.ok 0x10010
  | Quality.s24 => Except.error RuntimeError.unsupported24

/-! ## Playback scheduler position updates (`PlayLAF`, lines 525-586)

Per tick the scheduler polls `(processed, offset, state)` from the reference
source.  In the `AL_PLAYING`/`AL_PAUSED` branch it first recomputes every
channel's position from the position windows whenever any position track
exists (independent of `processed`), then refills buffers only when
`processed > 0`. -/

/-- The source states the scheduler distinguishes. -/
inductive SrcState where
  | initial | playing | paused | stopped
deriving DecidableEq, Repr

/-- The per-channel position triple the scheduler sends with `alSource3f`:
channel `i` reads its group's window (`trackidx = i >> 4`) at
`posoffset = offset / FramesPerPos * 16 + (i & 15)`, taking elements
`posoffset*3 + 0/1/2` and negating `z` (left-handed to right-handed). -/
def positionUpdates (posTracks : List (List ℚ)) (numChannels offset : ℕ) :
    List (ℚ × ℚ × ℚ) :=
  (List.range numChannels).map (fun i =>
    ((posTracks.getD (i / 16) []).getD
        ((offset / FramesPerPos * 16 + i % 16) * 3 + 0) 0,
      (posTracks.getD (i / 16) []).getD
        ((offset / FramesPerPos * 16 + i % 16) * 3 + 1) 0,
      -((posTracks.getD (i / 16) []).getD
        ((offset / FramesPerPos * 16 + i % 16) * 3 + 2) 0)))

/-- The position updates one scheduler tick performs: in the Playing/Paused
branch, whenever position tracks exist, all channels are updated — the
`processed` count is consulted only afterwards, for buffer refills. -/
def tickPositionUpdates (state : SrcState) (posTracks : List (List ℚ))
    (numChannels offset _processed : ℕ) : List (ℚ × ℚ × ℚ) :=
  if (state = SrcState.playing ∨ state = SrcState.paused) ∧ posTracks ≠ []
  then positionUpdates posTracks numChannels offset
  else []

/-! ## Position-window index bounds (C9)

`LoadLAF` sizes every position window as `mSampleRate * 2` floats
(line 484); the scheduler reads elements `posoffset*3 + {0,1,2}` with
`posoffset = offset/FramesPerPos*16 + (i&15)` (lines 550-553, 662-665). -/

/-- Allocated length of a position window: `mSampleRate * 2` floats. -/
def posWindowLen (R : ℕ) : ℕ := R * 2

/-- The element index the scheduler reads from a position window. -/
def posLookupIndex (offset i k : ℕ) : ℕ :=
  (offset / FramesPerPos * 16 + i % 16) * 3 + k

/-! ## The bitmap assertion in `readChunk` (C8)

Line 269: `alassert(mEnabledTracks[((mNumTracks+7)>>3) - 1] <
(1u<<(mNumTracks&7)))` — intended to verify that no bitmap bit at or above
`mNumTracks` is set.  For `mNumTracks` a multiple of 8 the shift amount
`mNumTracks & 7` is 0, so the assertion demands the final (fully used)
bitmap byte be `< 1`, i.e. zero — which is violated by any well-formed chunk
that enables a track in that byte. -/

/-- The asserted condition, over the track count and bitmap bytes. -/
def readChunkAssert (numTracks : ℕ) (bitmap : List ℕ) : Prop :=
  bitmap.getD ((numTracks + 7) / 8 - 1) 0 < 2 ^ (numTracks % 8)

instance (numTracks : ℕ) (bitmap : List ℕ) :
    Decidable (readChunkAssert numTracks bitmap) := by
  unfold readChunkAssert
  infer_instance

/-! ## Format parser (`LoadLAF`, lines 372-492)

The input is the file's byte stream (`List ℕ`, little-endian integers).
Track-metadata floats are read as their 4-byte IEEE-754 single-precision bit
patterns; the parser only inspects them through `x != x`, `y == 0.0` and
`std::isfinite`, which are the bit-pattern predicates below.  Every
`alassert`/`throw` failure is the spec's `FormatError`. -/

/-- The single fatal parse-failure kind (`FormatError` in the spec). -/
inductive FormatError where
  | err
deriving DecidableEq, Repr

/-- Little-endian value of a byte list: `bytes[0] + 256*bytes[1] + ...`
(the `al::bit_cast` of the copied bytes into `uint32_t`/`uint64_t`). -/
def leBytes : List ℕ → ℕ
  | [] => 0
  | b :: rest => b + 256 * leBytes rest

/-- Exponent field of an IEEE-754 single-precision bit pattern. -/
def fexp (w : ℕ) : ℕ := w / 2 ^ 23 % 256

/-- Mantissa field of an IEEE-754 single-precision bit pattern. -/
def fmant (w : ℕ) : ℕ := w % 2 ^ 23

/-- `x != x`: the value is a NaN (exponent all ones, nonzero mantissa). -/
def fIsNaN (w : ℕ) : Bool := fexp w == 255 && !(fmant w == 0)

/-- `y == 0.0`: the value is ±0 (all bits except the sign are zero). -/
def fIsZero (w : ℕ) : Bool := w % 2 ^ 31 == 0

/-- `std::isfinite`: the exponent field is not all ones. -/
def fIsFinite (w : ℕ) : Bool := !(fexp w == 255)

/-- An infinity: exponent all ones, zero mantissa. -/
def fIsInf (w : ℕ) : Bool := fexp w == 255 && fmant w == 0

/-- Classification of one 9-byte track record (lines 433-447), given the
track index `i` and the number of position tracks seen so far: a NaN
elevation with zero azimuth is a position track (requiring Objects mode and
`i != 0`); otherwise it is an audio track, requiring that no position track
has been seen and that elevation and azimuth are both finite.  `true` means
position track. -/
def classifyRecord (mode : Mode) (i numP : ℕ) (x y : ℕ) :
    Except FormatError Bool :=
  if fIsNaN x && fIsZero y then
    if mode = Mode.objects ∧ i ≠ 0 then Except.ok true
    else Except.error FormatError.err
  else
    if numP = 0 ∧ fIsFinite x = true ∧ fIsFinite y = true then Except.ok false
    else Except.error FormatError.err

/-- The per-track metadata loop: classify `n` remaining records of `meta`
(9 bytes each) starting at track index `i`, accumulating the audio-track and
position-track counts. -/
def parseTracks (mode : Mode) (meta : List ℕ) :
    ℕ → ℕ → ℕ → ℕ → Except FormatError (ℕ × ℕ)
  | _, numA, numP, 0 => Except.ok (numA, numP)
  | i, numA, numP, n + 1 =>
    match classifyRecord mode i numP (leBytes ((meta.drop (9 * i)).take 4))
        (leBytes ((meta.drop (9 * i + 4)).take 4)) with
    | Except.error e => Except.error e
    | Except.ok true => parseTracks mode meta (i + 1) numA (numP + 1) n
    | Except.ok false => parseTracks mode meta (i + 1) (numA + 1) numP n

/-- The stream descriptor `LoadLAF` produces. -/
structure LafDesc where
  quality : Quality
  mode : Mode
  numTracks : ℕ
  numChannels : ℕ
  numPosTracks : ℕ
  sampleRate : ℕ
  sampleCount : ℕ
deriving DecidableEq, Repr

/-- The 9-byte magic literal `"LIMITLESS"`. -/
def magicBytes : List ℕ := [76, 73, 77, 73, 84, 76, 69, 83, 83]

/-- The section tag `"HEAD"`. -/
def headBytes : List ℕ := [72, 69, 65, 68]

/-- Quality code from header byte 4: 0/1/2/3, anything else throws. -/
def parseQuality (b : ℕ) : Except FormatError Quality :=
  match b with
  | 0 => Except.ok Quality.s8
  | 1 => Except.ok Quality.s16
  | 2 => Except.ok Quality.f32
  | 3 => Except.ok Quality.s24
  | _ => Except.error FormatError.err

/-- Mode code from header byte 5: 0/1, anything else throws. -/
def parseMode (b : ℕ) : Except FormatError Mode :=
  match b with
  | 0 => Except.ok Mode.channels
  | 1 => Except.ok Mode.objects
  | _ => Except.error FormatError.err

/-- `LoadLAF` over the input byte stream: magic, `HEAD`, quality, mode,
track count (little-endian, at most 256), the metadata loop, the
Objects-mode position-track-count check (`size_t` arithmetic, so the
subtractions wrap modulo `2^64`), the footer (sample rate and count), and
the Objects-mode rate restriction.  Each short read is a failed
`alassert(mInFile.read(...))`.  The parser touches no chunk data: it only
consumes the header, metadata and footer bytes. -/
def loadLAF (input : List ℕ) : Except FormatError LafDesc := do
  if 9 ≤ input.length then Except.ok () else Except.error FormatError.err
  if input.take 9 = magicBytes then Except.ok ()
    else Except.error FormatError.err
  if 19 ≤ input.length then Except.ok () else Except.error FormatError.err
  if (input.drop 9).take 4 = headBytes then Except.ok ()
    else Except.error FormatError.err
  let quality ← parseQuality (input.getD 13 0)
  let mode ← parseMode (input.getD 14 0)
  let numTracks := leBytes ((input.drop 15).take 4)
  if numTracks ≤ 256 then Except.ok () else Except.error FormatError.err
  if 19 + numTracks * 9 ≤ input.length then Except.ok ()
    else Except.error FormatError.err
  let counts ← parseTracks mode ((input.drop 19).take (numTracks * 9))
    0 0 0 numTracks
  if mode = Mode.channels ∨
      ((counts.1 + U64 - 1) % U64) / 16 = (counts.2 + U64 - 1) % U64 then
    Except.ok () else Except.error FormatError.err
  if 19 + numTracks * 9 + 12 ≤ input.length then Except.ok ()
    else Except.error FormatError.err
  let sampleRate := leBytes ((input.drop (19 + numTracks * 9)).take 4)
  let sampleCount := leBytes ((input.drop (19 + numTracks * 9 + 4)).take 8)
  if mode = Mode.channels ∨ sampleRate % FramesPerPos = 0 then Except.ok ()
    else Except.error FormatError.err
  Except.ok ⟨quality, mode, numTracks, counts.1, counts.2, sampleRate,
    sampleCount⟩

lemma readChunkAmount_eq (R T c : ℕ) (hc : c ≤ T) (hT : T < U64) :
    readChunkAmount R T c = min R (T - c) := by
  unfold readChunkAmount
  congr 1
  have h1 : T + U64 - c = (T - c) + U64 := by omega
  rw [h1, Nat.add_mod_right]
  exact Nat.mod_eq_of_lt (by omega)

lemma readChunkNext_eq (R T c : ℕ) (hc : c ≤ T) (hT : T < U64) :
    readChunkNext R T c = c + min R (T - c) := by
  unfold readChunkNext
  rw [readChunkAmount_eq R T c hc hT]
  exact Nat.mod_eq_of_lt (by omega)

lemma consumedAfter_eq (R T : ℕ) (hT : T < U64) :
    ∀ n, consumedAfter R T n = min (n * R) T := by
  intro n
  induction n with
  | zero => simp [consumedAfter]
  | succ n ih =>
    have hle : consumedAfter R T n ≤ T := by rw [ih]; omega
    rw [consumedAfter, readChunkNext_eq R T _ hle hT, ih, Nat.succ_mul]
    omega

/-- C1: while the consumed counter `c` satisfies `c < T`, `readChunk` returns
`min(R, T - c)` and advances the counter by exactly that amount; iterating
from `c = 0`, the counter after `n` calls is `min(n*R, T)`, it never exceeds
`T`, it strictly increases while `c < T`, every sample index `x < T` lies in
exactly one of the consumed ranges `[c_k, c_{k+1})` (namely `k = x / R`), and
the final call (call number `⌈T/R⌉`) returns the remainder `T - (⌈T/R⌉-1)*R`,
which is at most `R`, leaving the counter exactly at `T`. -/
theorem readChunk_partition (R T : ℕ) (hR : 0 < R) (hT : T < U64) :
    (∀ c, c < T → readChunkAmount R T c = min R (T - c) ∧
      readChunkNext R T c = c + min R (T - c)) ∧
    (∀ n, consumedAfter R T n = min (n * R) T) ∧
    (∀ n, consumedAfter R T n ≤ T) ∧
    (∀ n, consumedAfter R T n < T →
      consumedAfter R T n < consumedAfter R T (n + 1)) ∧
    (∀ x, x < T →
      (consumedAfter R T (x / R) ≤ x ∧ x < consumedAfter R T (x / R + 1)) ∧
      (∀ k, consumedAfter R T k ≤ x → x < consumedAfter R T (k + 1) →
        k = x / R)) ∧
    (consumedAfter R T (numChunkCalls R T) = T) ∧
    (0 < T →
      consumedAfter R T (numChunkCalls R T - 1) < T ∧
      readChunkAmount R T (consumedAfter R T (numChunkCalls R T - 1)) =
        T - (numChunkCalls R T - 1) * R ∧
      T - (numChunkCalls R T - 1) * R ≤ R) := by
  have hc := consumedAfter_eq R T hT
  have hNd := Nat.div_add_mod' (T + R - 1) R
  have hNm : (T + R - 1) % R < R := Nat.mod_lt _ hR
  refine ⟨?_, hc, ?_, ?_, ?_, ?_, ?_⟩
  · intro c hcT
    exact ⟨readChunkAmount_eq R T c (le_of_lt hcT) hT,
      readChunkNext_eq R T c (le_of_lt hcT) hT⟩
  · intro n; rw [hc]; omega
  · intro n h
    rw [hc] at h ⊢
    rw [hc, Nat.succ_mul]
    omega
  · intro x hx
    have hxd := Nat.div_add_mod' x R
    have hxm : x % R < R := Nat.mod_lt _ hR
    constructor
    · rw [hc, hc, Nat.succ_mul]
      generalize x / R = q at hxd ⊢
      generalize x % R = m at hxd hxm
      omega
    · intro k h1 h2
      rw [hc] at h1
      rw [hc, Nat.succ_mul] at h2
      have hk1 : k * R ≤ x := by omega
      have hk2 : x < (k + 1) * R := by rw [Nat.succ_mul]; omega
      have h3 : k ≤ x / R := (Nat.le_div_iff_mul_le hR).mpr hk1
      have h4 : x / R < k + 1 := (Nat.div_lt_iff_lt_mul hR).mpr hk2
      omega
  · rw [hc]
    unfold numChunkCalls
    generalize (T + R - 1) / R = q at hNd
    generalize (T + R - 1) % R = m at hNd hNm
    omega
  · intro hT0
    unfold numChunkCalls
    have hq1 : 1 ≤ (T + R - 1) / R := (Nat.one_le_div_iff hR).mpr (by omega)
    generalize (T + R - 1) / R = q at hNd hq1
    generalize (T + R - 1) % R = m at hNd hNm
    have hsub : (q - 1) * R = q * R - R := Nat.sub_one_mul q R
    have hlt : consumedAfter R T (q - 1) < T := by rw [hc]; omega
    refine ⟨hlt, ?_, ?_⟩
    · rw [readChunkAmount_eq R T _ (le_of_lt hlt) hT, hc]
      omega
    · omega

/-- Witness for C1 at `R = 3`, `T = 7` (three calls returning 3, 3, 1). -/
theorem readChunk_partition_witness :
    0 < 3 ∧ 7 < U64 ∧
    ((∀ c, c < 7 → readChunkAmount 3 7 c = min 3 (7 - c) ∧
        readChunkNext 3 7 c = c + min 3 (7 - c)) ∧
      (∀ n, consumedAfter 3 7 n = min (n * 3) 7) ∧
      (∀ n, consumedAfter 3 7 n ≤ 7) ∧
      (∀ n, consumedAfter 3 7 n < 7 →
        consumedAfter 3 7 n < consumedAfter 3 7 (n + 1)) ∧
      (∀ x, x < 7 →
        (consumedAfter 3 7 (x / 3) ≤ x ∧ x < consumedAfter 3 7 (x / 3 + 1)) ∧
        (∀ k, consumedAfter 3 7 k ≤ x → x < consumedAfter 3 7 (k + 1) →
          k = x / 3)) ∧
      (consumedAfter 3 7 (numChunkCalls 3 7) = 7) ∧
      (0 < 7 →
        consumedAfter 3 7 (numChunkCalls 3 7 - 1) < 7 ∧
        readChunkAmount 3 7 (consumedAfter 3 7 (numChunkCalls 3 7 - 1)) =
          7 - (numChunkCalls 3 7 - 1) * 3 ∧
        7 - (numChunkCalls 3 7 - 1) * 3 ≤ 3)) :=
  ⟨by norm_num, by norm_num [U64], readChunk_partition 3 7 (by norm_num)
    (by norm_num [U64])⟩

lemma popcountAux_congr : ∀ fuel fuel' m : ℕ, m ≤ fuel → m ≤ fuel' →
    popcountAux fuel m = popcountAux fuel' m := by
  intro fuel
  induction fuel with
  | zero =>
    intro fuel' m h h'
    have hm : m = 0 := by omega
    cases fuel' <;> simp [hm, popcountAux]
  | succ fuel ih =>
    intro fuel' m h h'
    rcases Nat.eq_zero_or_pos m with hm | hm
    · cases fuel' <;> simp [hm, popcountAux]
    · cases fuel' with
      | zero => omega
      | succ fuel' =>
        have hne : m ≠ 0 := by omega
        rw [popcountAux, popcountAux, if_neg hne, if_neg hne,
          ih fuel' (m / 2) (by omega) (by omega)]

lemma popcount_zero : popcount 0 = 0 := rfl

lemma popcount_one : popcount 1 = 1 := rfl

lemma popcount_eq_mod_add (n : ℕ) : popcount n = n % 2 + popcount (n / 2) := by
  cases n with
  | zero => simp [popcount, popcountAux]
  | succ n =>
    show popcountAux (n + 1) (n + 1) = _
    rw [popcountAux, if_neg (Nat.succ_ne_zero n)]
    rw [popcountAux_congr n ((n + 1) / 2) ((n + 1) / 2) (by omega) (le_refl _)]
    rfl

lemma popcount_two_mul_add (n b : ℕ) (hb : b < 2) :
    popcount (2 * n + b) = b + popcount n := by
  rw [popcount_eq_mod_add (2 * n + b)]
  have h1 : (2 * n + b) % 2 = b := by omega
  have h2 : (2 * n + b) / 2 = n := by omega
  rw [h1, h2]

lemma popcount_pow_mul_add (r : ℕ) : ∀ c x : ℕ, x < 2 ^ r →
    popcount (2 ^ r * c + x) = popcount c + popcount x := by
  induction r with
  | zero =>
    intro c x hx
    have hx0 : x = 0 := by omega
    simp [hx0, popcount_zero]
  | succ r ih =>
    intro c x hx
    have hp : (2 : ℕ) ^ (r + 1) = 2 ^ r * 2 := pow_succ 2 r
    have hx2 : x / 2 < 2 ^ r := by omega
    have heq : 2 ^ (r + 1) * c + x = 2 * (2 ^ r * c + x / 2) + x % 2 := by
      rw [hp]
      have := Nat.div_add_mod x 2
      ring_nf
      omega
    rw [heq, popcount_two_mul_add _ _ (Nat.mod_lt _ Nat.two_pos), ih _ _ hx2,
      popcount_eq_mod_add x]
    ring

/-- Splitting a residue `b % 2^(r+1)` into the low `r` bits and bit `r`. -/
lemma popcount_mod_pow_succ (b r : ℕ) :
    popcount (b % 2 ^ (r + 1)) =
      popcount (b % 2 ^ r) + (if Nat.testBit b r then 1 else 0) := by
  have hsplit : b % 2 ^ (r + 1) = 2 ^ r * (b / 2 ^ r % 2) + b % 2 ^ r := by
    rw [Nat.mod_pow_succ]; ring
  have hmlt : b % 2 ^ r < 2 ^ r := Nat.mod_lt _ (Nat.pos_pow_of_pos r Nat.two_pos)
  rw [hsplit, popcount_pow_mul_add r _ _ hmlt, Nat.testBit_to_div_mod]
  have : b / 2 ^ r % 2 = 0 ∨ b / 2 ^ r % 2 = 1 := by omega
  rcases this with h | h <;> simp [h, popcount_zero, popcount_one, Nat.add_comm]

lemma enabledIdx_zero (bitmap : List ℕ) : enabledIdx bitmap 0 = 0 := by
  simp [enabledIdx, popcount_zero, Nat.mod_one]

lemma enabledIdx_succ (bitmap : List ℕ) (hbytes : ∀ b ∈ bitmap, b < 256)
    (t : ℕ) :
    enabledIdx bitmap (t + 1) =
      enabledIdx bitmap t + (if trackEnabled bitmap t then 1 else 0) := by
  rcases Nat.lt_or_ge (t % 8) 7 with h7 | h7
  · have hd : (t + 1) / 8 = t / 8 := by omega
    have hm : (t + 1) % 8 = t % 8 + 1 := by omega
    rw [enabledIdx, enabledIdx, hd, hm, popcount_mod_pow_succ]
    rw [trackEnabled]
    ring
  · have h7' : t % 8 = 7 := by omega
    have hd : (t + 1) / 8 = t / 8 + 1 := by omega
    have hm : (t + 1) % 8 = 0 := by omega
    rw [enabledIdx, enabledIdx, hd, hm, h7']
    have hz : popcount (bitmap.getD (t / 8 + 1) 0 % 2 ^ 0) = 0 := by
      simp [pow_zero, Nat.mod_one, popcount_zero]
    rw [hz]
    rcases Nat.lt_or_ge (t / 8) bitmap.length with hlen | hlen
    · have htake : bitmap.take (t / 8 + 1) =
          bitmap.take (t / 8) ++ [bitmap.getD (t / 8) 0] := by
        rw [List.take_succ]
        congr 1
        rw [List.getD_eq_getElem _ _ hlen]
        simp [List.getElem?_eq_getElem hlen]
      have hb : bitmap.getD (t / 8) 0 < 256 := by
        rw [List.getD_eq_getElem _ _ hlen]
        exact hbytes _ (List.getElem_mem _)
      have hfull : popcount (bitmap.getD (t / 8) 0) =
          popcount (bitmap.getD (t / 8) 0 % 2 ^ 7) +
            (if Nat.testBit (bitmap.getD (t / 8) 0) 7 then 1 else 0) := by
        have h := popcount_mod_pow_succ (bitmap.getD (t / 8) 0) 7
        rwa [Nat.mod_eq_of_lt (lt_of_lt_of_le hb (by norm_num))] at h
      rw [htake, List.map_append, List.sum_append, List.map_singleton,
        List.sum_singleton, trackEnabled, h7']
      by_cases hbit : Nat.testBit (bitmap.getD (t / 8) 0) 7
      · rw [if_pos hbit] at hfull ⊢; omega
      · rw [if_neg hbit] at hfull ⊢; omega
    · have hget : bitmap.getD (t / 8) 0 = 0 := List.getD_eq_default _ _ hlen
      rw [List.take_of_length_le (by omega), List.take_of_length_le (by omega),
        trackEnabled, h7', hget]
      simp [Nat.zero_testBit, popcount_zero, Nat.zero_mod]

lemma countEnabledBelow_succ (bitmap : List ℕ) (t : ℕ) :
    countEnabledBelow bitmap (t + 1) =
      countEnabledBelow bitmap t + (if trackEnabled bitmap t then 1 else 0) := by
  unfold countEnabledBelow
  rw [List.range_succ, List.filter_append, List.length_append]
  by_cases h : trackEnabled bitmap t <;> simp [h]

/-- The ordinal `prepareTrack` computes is exactly the number of enabled
tracks with index strictly below `t`. -/
lemma enabledIdx_eq_countBelow (bitmap : List ℕ)
    (hbytes : ∀ b ∈ bitmap, b < 256) :
    ∀ t, enabledIdx bitmap t = countEnabledBelow bitmap t := by
  intro t
  induction t with
  | zero => rw [enabledIdx_zero]; simp [countEnabledBelow]
  | succ t ih => rw [enabledIdx_succ bitmap hbytes, countEnabledBelow_succ, ih]

lemma enabledIdx_mono (bitmap : List ℕ) (hbytes : ∀ b ∈ bitmap, b < 256)
    (s u : ℕ) (h : s ≤ u) : enabledIdx bitmap s ≤ enabledIdx bitmap u := by
  induction u with
  | zero =>
    have hs : s = 0 := by omega
    rw [hs]
  | succ u ih =>
    rcases Nat.lt_or_ge s (u + 1) with hlt | hge
    · have h1 := ih (by omega)
      rw [enabledIdx_succ bitmap hbytes]
      by_cases hb : trackEnabled bitmap u <;> simp [hb] <;> omega
    · have hs : s = u + 1 := by omega
      rw [hs]

lemma enabledIdx_total (bitmap : List ℕ) :
    enabledIdx bitmap (8 * bitmap.length) = numEnabled bitmap := by
  unfold enabledIdx numEnabled
  have hd : 8 * bitmap.length / 8 = bitmap.length := by omega
  have hm : 8 * bitmap.length % 8 = 0 := by omega
  rw [hd, hm, List.take_of_length_le (le_refl _),
    List.getD_eq_default _ _ (le_refl _)]
  simp [popcount_zero, Nat.mod_one]

/-- An enabled track's ordinal is a valid index into the enabled-track
range `[0, mNumEnabled)`. -/
lemma enabledIdx_lt_numEnabled (bitmap : List ℕ)
    (hbytes : ∀ b ∈ bitmap, b < 256) (t : ℕ)
    (hen : trackEnabled bitmap t = true) :
    enabledIdx bitmap t < numEnabled bitmap := by
  have hlen : t / 8 < bitmap.length := by
    by_contra hge
    rw [trackEnabled, List.getD_eq_default _ _ (by omega), Nat.zero_testBit]
      at hen
    exact Bool.false_ne_true hen
  have ht : t + 1 ≤ 8 * bitmap.length := by omega
  have h1 : enabledIdx bitmap (t + 1) = enabledIdx bitmap t + 1 := by
    rw [enabledIdx_succ bitmap hbytes, hen]
    simp
  have h2 := enabledIdx_mono bitmap hbytes (t + 1) (8 * bitmap.length) ht
  rw [h1, enabledIdx_total] at h2
  omega

lemma getD_range_map {α : Type} (f : ℕ → α) (d : α) (n k : ℕ) (hk : k < n) :
    ((List.range n).map f).getD k d = f k := by
  rw [List.getD_eq_getElem _ _ (by simpa using hk)]
  simp

/-- C2: if the current chunk's enabled samples are the interleaving of known
per-track sequences (one per enabled track, in track order) then for an
enabled track `t`, `prepareTrack t count` gathers exactly that track's
sequence for the first `min(sampleRate, count)` samples: the ordinal the code
computes equals the population count of bitmap bits before `t`, the `k`-th
output sample is the chunk sample at interleaved index
`k * numEnabled + ordinal`, and that chunk sample is the `k`-th sample of
track `t`'s own sequence. -/
theorem prepareTrack_deinterleaves
    (q : Quality) (R count t L : ℕ) (bitmap : List ℕ) (tracks : List (List ℤ))
    (hq : q ≠ Quality.s24)
    (hbytes : ∀ b ∈ bitmap, b < 256)
    (hN : tracks.length = numEnabled bitmap)
    (hen : trackEnabled bitmap t = true)
    (hL : min R count ≤ L) :
    enabledIdx bitmap t = countEnabledBelow bitmap t ∧
    prepareTrack q R bitmap (interleave tracks L) t count =
      Except.ok (copySamples (interleave tracks L) (enabledIdx bitmap t)
        (numEnabled bitmap) (min R count)) ∧
    ∀ k, k < min R count →
      (copySamples (interleave tracks L) (enabledIdx bitmap t)
          (numEnabled bitmap) (min R count)).getD k 0 =
        (interleave tracks L).getD
          (k * numEnabled bitmap + enabledIdx bitmap t) 0 ∧
      (interleave tracks L).getD
          (k * numEnabled bitmap + enabledIdx bitmap t) 0 =
        (tracks.getD (countEnabledBelow bitmap t) []).getD k 0 := by
  have hrank := enabledIdx_eq_countBelow bitmap hbytes t
  have hlt : enabledIdx bitmap t < numEnabled bitmap :=
    enabledIdx_lt_numEnabled bitmap hbytes t hen
  refine ⟨hrank, ?_, ?_⟩
  · cases q with
    | s24 => exact absurd rfl hq
    | s8 => simp [prepareTrack, hen]
    | s16 => simp [prepareTrack, hen]
    | f32 => simp [prepareTrack, hen]
  · intro k hk
    rw [← hN] at hlt
    rw [← hrank, ← hN]
    constructor
    · unfold copySamples
      rw [getD_range_map _ _ _ _ hk]
    · unfold interleave
      have hkL : k + 1 ≤ L := le_trans hk hL
      have hsm : (k + 1) * tracks.length = k * tracks.length + tracks.length :=
        Nat.succ_mul _ _
      have hmul : (k + 1) * tracks.length ≤ L * tracks.length :=
        Nat.mul_le_mul_right _ hkL
      have hbound : k * tracks.length + enabledIdx bitmap t <
          L * tracks.length := by omega
      rw [getD_range_map _ _ _ _ hbound]
      have h1 : (k * tracks.length + enabledIdx bitmap t) % tracks.length =
          enabledIdx bitmap t := by
        rw [Nat.mul_comm k tracks.length, Nat.mul_add_mod,
          Nat.mod_eq_of_lt hlt]
      have h2 : (k * tracks.length + enabledIdx bitmap t) / tracks.length =
          k := by
        rw [Nat.mul_comm k tracks.length,
          Nat.mul_add_div (by omega : 0 < tracks.length),
          Nat.div_eq_of_lt hlt, Nat.add_zero]
      rw [h1, h2]

/-- Witness for C2: two enabled tracks out of three (bitmap byte `0b101`),
16-bit quality, rate 3, request 5 frames; track 2 (ordinal 1) recovers the
sequence `[20, 21, 22]` from the interleaved chunk. -/
theorem prepareTrack_deinterleaves_witness :
    (Quality.s16 ≠ Quality.s24) ∧
    (∀ b ∈ [5], b < 256) ∧
    ([[(10 : ℤ), 11, 12], [20, 21, 22]].length = numEnabled [5]) ∧
    (trackEnabled [5] 2 = true) ∧
    (min 3 5 ≤ 3) ∧
    (enabledIdx [5] 2 = countEnabledBelow [5] 2 ∧
      prepareTrack Quality.s16 3 [5]
          (interleave [[(10 : ℤ), 11, 12], [20, 21, 22]] 3) 2 5 =
        Except.ok (copySamples (interleave [[(10 : ℤ), 11, 12], [20, 21, 22]] 3)
          (enabledIdx [5] 2) (numEnabled [5]) (min 3 5)) ∧
      ∀ k, k < min 3 5 →
        (copySamples (interleave [[(10 : ℤ), 11, 12], [20, 21, 22]] 3)
            (enabledIdx [5] 2) (numEnabled [5]) (min 3 5)).getD k 0 =
          (interleave [[(10 : ℤ), 11, 12], [20, 21, 22]] 3).getD
            (k * numEnabled [5] + enabledIdx [5] 2) 0 ∧
        (interleave [[(10 : ℤ), 11, 12], [20, 21, 22]] 3).getD
            (k * numEnabled [5] + enabledIdx [5] 2) 0 =
          ([[(10 : ℤ), 11, 12], [20, 21, 22]].getD
            (countEnabledBelow [5] 2) []).getD k 0) := by
  have hbytes : ∀ b ∈ [5], b < 256 := by
    intro b hb
    rw [List.mem_singleton] at hb
    omega
  refine ⟨by decide, hbytes, by decide, by decide, by decide, ?_⟩
  exact prepareTrack_deinterleaves Quality.s16 3 5 2 3 [5]
    [[(10 : ℤ), 11, 12], [20, 21, 22]] (by decide) hbytes (by decide)
    (by decide) (by decide)

/-- C7 (counterexample): with sample rate 1 a request for 2 frames returns a
span of `min(1, 2) = 1` sample — `1 * bytesPerSample` bytes, not
`2 * bytesPerSample` as the claim states for every `frameCount`. -/
theorem prepareTrack_length_counterexample :
    prepareTrack Quality.s16 1 [0] [] 0 2 = Except.ok [0] ∧
    ¬(([0] : List ℤ).length * BytesFromQuality Quality.s16 =
        2 * BytesFromQuality Quality.s16) := by
  constructor
  · rfl
  · decide

/-- C7 (amended): the span returned by `prepareTrack` always has byte length
`min(sampleRate, frameCount) * bytesPerSample(quality)`; this equals
`frameCount * bytesPerSample` exactly when `frameCount ≤ sampleRate`. -/
theorem prepareTrack_length (q : Quality) (R : ℕ) (bitmap : List ℕ)
    (chunk : List ℤ) (t count : ℕ) (l : List ℤ)
    (h : prepareTrack q R bitmap chunk t count = Except.ok l) :
    l.length * BytesFromQuality q = min R count * BytesFromQuality q ∧
    (count ≤ R → l.length * BytesFromQuality q =
      count * BytesFromQuality q) := by
  have hlen : l.length = min R count := by
    unfold prepareTrack at h
    by_cases hen : trackEnabled bitmap t
    · rw [if_pos hen] at h
      cases q with
      | s24 => simp at h
      | s8 | s16 | f32 =>
        injection h with h'
        rw [← h']
        simp [copySamples]
    · rw [if_neg hen] at h
      injection h with h'
      rw [← h']
      simp [List.length_take, List.length_replicate]
  constructor
  · rw [hlen]
  · intro hcount
    rw [hlen, Nat.min_eq_right hcount]

/-- Witness for C7's amended theorem: disabled track, rate 1, request 2,
returning 1 sample = 2 bytes of 16-bit silence. -/
theorem prepareTrack_length_witness :
    prepareTrack Quality.s16 1 [0] [] 0 2 = Except.ok [0] ∧
    (([0] : List ℤ).length * BytesFromQuality Quality.s16 =
        min 1 2 * BytesFromQuality Quality.s16 ∧
      (2 ≤ 1 → ([0] : List ℤ).length * BytesFromQuality Quality.s16 =
        2 * BytesFromQuality Quality.s16)) :=
  ⟨rfl, prepareTrack_length Quality.s16 1 [0] [] 0 2 [0] rfl⟩

/-- C4 (counterexample): for int24 quality `convertPositions` does NOT fail —
it silently returns with the destination unchanged (`case Quality::s24:
break;`), contradicting the claim that it raises an error and does not
leave the destination unchanged. -/
theorem convertPositions_s24_counterexample :
    convertPositions Quality.s24 [(3 : ℚ)] [(5 : ℚ)] = [(3 : ℚ)] := rfl

/-- C4 (amended): for int24 quality `convertPositions` itself silently leaves
the destination unchanged; the fatal int24 error is raised instead by
`prepareTrack` (for an enabled track) and by `FormatFromQuality` during
buffer submission — both of which run before any `convertPositions` call in
the playback paths — so an int24 stream still fails before any position
decode is attempted. -/
theorem convertPositions_s24_amended :
    (∀ dst src, convertPositions Quality.s24 dst src = dst) ∧
    FormatFromQuality Quality.s24 = Except.error RuntimeError.unsupported24 ∧
    (∀ R bitmap chunk t count, trackEnabled bitmap t = true →
      prepareTrack Quality.s24 R bitmap chunk t count =
        Except.error RuntimeError.unsupported24) := by
  refine ⟨fun dst src => rfl, rfl, ?_⟩
  intro R bitmap chunk t count hen
  simp [prepareTrack, hen]

/-- Witness for C4's amended theorem at concrete inputs. -/
theorem convertPositions_s24_amended_witness :
    convertPositions Quality.s24 [(3 : ℚ), 4] [(5 : ℚ)] = [(3 : ℚ), 4] ∧
    FormatFromQuality Quality.s24 = Except.error RuntimeError.unsupported24 ∧
    (trackEnabled [1] 0 = true ∧
      prepareTrack Quality.s24 4 [1] [] 0 4 =
        Except.error RuntimeError.unsupported24) :=
  ⟨convertPositions_s24_amended.1 [(3 : ℚ), 4] [(5 : ℚ)],
    convertPositions_s24_amended.2.1,
    by decide, convertPositions_s24_amended.2.2 4 [1] [] 0 4 (by decide)⟩

/-- C6: at every tick observed in Playing or Paused state with at least one
position track, the scheduler recomputes each channel `i`'s position from its
group's window (`i / 16`) at triple index `(offset / 48) * 16 + (i mod 16)`,
and does so for every value of the buffers-processed count. -/
theorem tick_position_updates (state : SrcState) (posTracks : List (List ℚ))
    (numChannels offset processed processed' : ℕ)
    (hstate : state = SrcState.playing ∨ state = SrcState.paused)
    (hpos : posTracks ≠ []) :
    tickPositionUpdates state posTracks numChannels offset processed =
      tickPositionUpdates state posTracks numChannels offset processed' ∧
    tickPositionUpdates state posTracks numChannels offset processed =
      positionUpdates posTracks numChannels offset ∧
    ∀ i, i < numChannels →
      (tickPositionUpdates state posTracks numChannels offset
          processed).getD i (0, 0, 0) =
        ((posTracks.getD (i / 16) []).getD
            ((offset / FramesPerPos * 16 + i % 16) * 3 + 0) 0,
          (posTracks.getD (i / 16) []).getD
            ((offset / FramesPerPos * 16 + i % 16) * 3 + 1) 0,
          -((posTracks.getD (i / 16) []).getD
            ((offset / FramesPerPos * 16 + i % 16) * 3 + 2) 0)) := by
  have heq : ∀ p : ℕ,
      tickPositionUpdates state posTracks numChannels offset p =
        positionUpdates posTracks numChannels offset := by
    intro p
    unfold tickPositionUpdates
    rw [if_pos ⟨hstate, hpos⟩]
  refine ⟨by rw [heq, heq], heq processed, ?_⟩
  intro i hi
  rw [heq]
  unfold positionUpdates
  rw [getD_range_map _ _ _ _ hi]

/-- Witness for C6: one position track, two channels, offset 50 (triple
index 16 and 17), with two different processed counts (0 and 7). -/
theorem tick_position_updates_witness :
    (SrcState.playing = SrcState.playing ∨
      SrcState.playing = SrcState.paused) ∧
    ([[(1 : ℚ), 2, 3]] ≠ ([] : List (List ℚ))) ∧
    (tickPositionUpdates SrcState.playing [[(1 : ℚ), 2, 3]] 2 50 0 =
        tickPositionUpdates SrcState.playing [[(1 : ℚ), 2, 3]] 2 50 7 ∧
      tickPositionUpdates SrcState.playing [[(1 : ℚ), 2, 3]] 2 50 0 =
        positionUpdates [[(1 : ℚ), 2, 3]] 2 50 ∧
      ∀ i, i < 2 →
        (tickPositionUpdates SrcState.playing [[(1 : ℚ), 2, 3]] 2 50
            0).getD i (0, 0, 0) =
          (([[(1 : ℚ), 2, 3]].getD (i / 16) []).getD
              ((50 / FramesPerPos * 16 + i % 16) * 3 + 0) 0,
            ([[(1 : ℚ), 2, 3]].getD (i / 16) []).getD
              ((50 / FramesPerPos * 16 + i % 16) * 3 + 1) 0,
            -(([[(1 : ℚ), 2, 3]].getD (i / 16) []).getD
              ((50 / FramesPerPos * 16 + i % 16) * 3 + 2) 0))) :=
  ⟨Or.inl rfl, by decide,
    tick_position_updates SrcState.playing [[(1 : ℚ), 2, 3]] 2 50 0 7
      (Or.inl rfl) (by decide)⟩

/-- C9: for a sample rate that is a positive multiple of 48 and a reported
offset below `2*R` (the two queued one-second buffers), every element index
the position update reads is strictly inside the allocated window. -/
theorem posLookup_inBounds (R offset i k : ℕ) (hR : 0 < R)
    (h48 : R % FramesPerPos = 0) (ho : offset < posWindowLen R)
    (hk : k < 3) : posLookupIndex offset i k < posWindowLen R := by
  unfold posLookupIndex posWindowLen FramesPerPos at *
  obtain ⟨m, hm⟩ : ∃ m, R = 48 * m := ⟨R / 48, by omega⟩
  subst hm
  omega

/-- Witness for C9 at `R = 48`, `offset = 95`, `i = 17`, `k = 2`
(index 53 < 96). -/
theorem posLookup_inBounds_witness :
    0 < 48 ∧ 48 % FramesPerPos = 0 ∧ 95 < posWindowLen 48 ∧ 2 < 3 ∧
    posLookupIndex 95 17 2 < posWindowLen 48 :=
  ⟨by decide, by decide, by decide, by decide,
    posLookup_inBounds 48 95 17 2 (by decide) (by decide) (by decide)
      (by decide)⟩

/-- C8 (code bug): the bitmap `[0x01, 0, ..., 0]` with track count 8 is
well-formed — it enables only track 0, which is below the track count — yet
the assertion fails (`1 < 1<<0` is false), so `readChunk` aborts.  The same
bitmap passes the assertion for track count 7, isolating the off-by-one at
track counts that are multiples of 8. -/
theorem readChunkAssert_bug :
    (∀ t, trackEnabled (1 :: List.replicate 31 0) t = true → t < 8) ∧
    ¬readChunkAssert 8 (1 :: List.replicate 31 0) ∧
    readChunkAssert 7 (1 :: List.replicate 31 0) := by
  refine ⟨?_, by decide, by decide⟩
  intro t ht
  by_contra hge
  rw [trackEnabled] at ht
  have hz : (1 :: List.replicate 31 0).getD (t / 8) 0 = 0 := by
    have h1 : 1 ≤ t / 8 := by omega
    obtain ⟨s, hs⟩ : ∃ s, t / 8 = s + 1 := ⟨t / 8 - 1, by omega⟩
    rw [hs, List.getD_cons_succ]
    rcases Nat.lt_or_ge s 31 with h31 | h31
    · rw [List.getD_eq_getElem _ _ (by simpa using h31),
        List.getElem_replicate]
    · rw [List.getD_eq_default _ _ (by simpa using h31)]
  rw [hz, Nat.zero_testBit] at ht
  exact Bool.false_ne_true ht

/-- Witness for C8's theorem (its first conjunct has a hypothesis):
track 0 is enabled in the bitmap, and the assertion still fails. -/
theorem readChunkAssert_bug_witness :
    (0 : ℕ) < 8 ∧ ¬readChunkAssert 8 (1 :: List.replicate 31 0) :=
  ⟨readChunkAssert_bug.1 0 (by decide), readChunkAssert_bug.2.1⟩

/-- Everything a successful parse guarantees: each check in `LoadLAF` was
passed and each descriptor field is what the corresponding bytes decode to. -/
lemma loadLAF_ok_facts (input : List ℕ) (d : LafDesc)
    (h : loadLAF input = Except.ok d) :
    9 ≤ input.length ∧
    input.take 9 = magicBytes ∧
    19 ≤ input.length ∧
    (input.drop 9).take 4 = headBytes ∧
    parseQuality (input.getD 13 0) = Except.ok d.quality ∧
    parseMode (input.getD 14 0) = Except.ok d.mode ∧
    d.numTracks = leBytes ((input.drop 15).take 4) ∧
    d.numTracks ≤ 256 ∧
    parseTracks d.mode ((input.drop 19).take (d.numTracks * 9)) 0 0 0
      d.numTracks = Except.ok (d.numChannels, d.numPosTracks) ∧
    (d.mode = Mode.channels ∨
      (d.numChannels + U64 - 1) % U64 / 16 =
        (d.numPosTracks + U64 - 1) % U64) ∧
    d.sampleRate = leBytes ((input.drop (19 + d.numTracks * 9)).take 4) ∧
    d.sampleCount = leBytes ((input.drop (19 + d.numTracks * 9 + 4)).take 8) ∧
    (d.mode = Mode.channels ∨ d.sampleRate % FramesPerPos = 0) := by
  unfold loadLAF at h
  simp only [bind, Except.bind] at h
  split at h
  next h1 =>
    split at h
    next h2 =>
      split at h
      next h3 =>
        split at h
        next h4 =>
          rcases hq : parseQuality (input.getD 13 0) with e | qv
          all_goals rw [hq] at h
          · cases h
          · simp only at h
            rcases hm : parseMode (input.getD 14 0) with e | mv
            all_goals rw [hm] at h
            · cases h
            · simp only at h
              split at h
              next h5 =>
                split at h
                next h6 =>
                  rcases hp : parseTracks mv
                      ((input.drop 19).take
                        (leBytes ((input.drop 15).take 4) * 9)) 0 0 0
                      (leBytes ((input.drop 15).take 4)) with e | counts
                  all_goals rw [hp] at h
                  · cases h
                  · simp only at h
                    split at h
                    next h7 =>
                      split at h
                      next h8 =>
                        split at h
                        next h9 =>
                          cases h
                          exact ⟨h1, h2, h3, h4, rfl, rfl, rfl, h5, hp, h7,
                            rfl, rfl, h9⟩
                        next => cases h
                      next => cases h
                    next => cases h
                next => cases h
              next => cases h
        next => cases h
      next => cases h
    next => cases h
  next => cases h

lemma fIsNaN_not_finite (w : ℕ) (h : fIsNaN w = true) :
    fIsFinite w = false := by
  unfold fIsNaN at h
  unfold fIsFinite
  simp only [Bool.and_eq_true, beq_iff_eq] at h
  simp [h.1]

lemma fIsInf_not_finite (w : ℕ) (h : fIsInf w = true) :
    fIsFinite w = false := by
  unfold fIsInf at h
  unfold fIsFinite
  simp only [Bool.and_eq_true, beq_iff_eq] at h
  simp [h.1]

lemma fexp_of_zero_bits (w : ℕ) (h : w % 2 ^ 31 = 0) : fexp w = 0 := by
  obtain ⟨k, hk⟩ := Nat.dvd_of_mod_eq_zero h
  subst hk
  unfold fexp
  rw [show (2 : ℕ) ^ 31 = 2 ^ 23 * 2 ^ 8 by norm_num, Nat.mul_assoc,
    Nat.mul_div_cancel_left _ (by norm_num : (0 : ℕ) < 2 ^ 23),
    show (2 : ℕ) ^ 8 = 256 by norm_num, Nat.mul_mod_right]

lemma fIsInf_not_zero (w : ℕ) (h : fIsInf w = true) : fIsZero w = false := by
  unfold fIsInf at h
  simp only [Bool.and_eq_true, beq_iff_eq] at h
  unfold fIsZero
  by_contra hz
  simp only [Bool.not_eq_false, beq_iff_eq] at hz
  have := fexp_of_zero_bits w hz
  omega

/-- C10: a track record is classified as an audio track only when both its
elevation and azimuth bit patterns are finite; a record with a NaN elevation
and a nonzero azimuth, or with an infinite elevation or azimuth, makes the
parser fail (`FormatError`) instead of classifying the record as audio or
position. -/
theorem classifyRecord_finiteness :
    (∀ mode i numP x y, classifyRecord mode i numP x y = Except.ok false →
      fIsFinite x = true ∧ fIsFinite y = true) ∧
    (∀ mode i numP x y, fIsNaN x = true → fIsZero y = false →
      classifyRecord mode i numP x y = Except.error FormatError.err) ∧
    (∀ mode i numP x y, fIsInf x = true ∨ fIsInf y = true →
      classifyRecord mode i numP x y = Except.error FormatError.err) := by
  refine ⟨?_, ?_, ?_⟩
  · intro mode i numP x y h
    unfold classifyRecord at h
    split at h
    · split at h <;> cases h
    · split at h
      next hcond => exact ⟨hcond.2.1, hcond.2.2⟩
      next => cases h
  · intro mode i numP x y hn hz
    unfold classifyRecord
    rw [if_neg, if_neg]
    · intro hcond
      have := fIsNaN_not_finite x hn
      rw [hcond.2.1] at this
      cases this
    · simp [hz]
  · intro mode i numP x y hinf
    unfold classifyRecord
    rcases hinf with hx | hy
    · rw [if_neg, if_neg]
      · intro hcond
        have := fIsInf_not_finite x hx
        rw [hcond.2.1] at this
        cases this
      · have h1 : fIsNaN x = false := by
          unfold fIsInf at hx
          unfold fIsNaN
          simp only [Bool.and_eq_true, beq_iff_eq] at hx
          simp [hx.2]
        simp [h1]
    · rw [if_neg, if_neg]
      · intro hcond
        have := fIsInf_not_finite y hy
        rw [hcond.2.2] at this
        cases this
      · have h1 : fIsZero y = false := fIsInf_not_zero y hy
        simp [h1]

/-- Witness for C10: NaN = `0x7FC00000`, +inf = `0x7F800000`,
1.0 = `0x3F800000`. -/
theorem classifyRecord_finiteness_witness :
    (classifyRecord Mode.channels 0 0 0 0 = Except.ok false ∧
      fIsFinite 0 = true ∧ fIsFinite 0 = true) ∧
    (fIsNaN 2143289344 = true ∧ fIsZero 1065353216 = false ∧
      classifyRecord Mode.objects 1 0 2143289344 1065353216 =
        Except.error FormatError.err) ∧
    (fIsInf 2139095040 = true ∧
      classifyRecord Mode.channels 0 0 2139095040 0 =
        Except.error FormatError.err) ∧
    (fIsInf 2139095040 = true ∧
      classifyRecord Mode.channels 0 0 0 2139095040 =
        Except.error FormatError.err) :=
  ⟨⟨rfl, classifyRecord_finiteness.1 Mode.channels 0 0 0 0 rfl⟩,
    ⟨by decide, by decide,
      classifyRecord_finiteness.2.1 Mode.objects 1 0 2143289344 1065353216
        (by decide) (by decide)⟩,
    ⟨by decide,
      classifyRecord_finiteness.2.2 Mode.channels 0 0 2139095040 0
        (Or.inl (by decide))⟩,
    ⟨by decide,
      classifyRecord_finiteness.2.2 Mode.channels 0 0 0 2139095040
        (Or.inr (by decide))⟩⟩

lemma parseQuality_ok_byte (b : ℕ) (q : Quality)
    (h : parseQuality b = Except.ok q) :
    b = 0 ∨ b = 1 ∨ b = 2 ∨ b = 3 := by
  unfold parseQuality at h
  split at h <;> first | omega | cases h

lemma parseMode_ok_byte (b : ℕ) (m : Mode)
    (h : parseMode b = Except.ok m) : b = 0 ∨ b = 1 := by
  unfold parseMode at h
  split at h <;> first | omega | cases h

lemma parseMode_one (m : Mode) (h : parseMode 1 = Except.ok m) :
    m = Mode.objects := by
  unfold parseMode at h
  injection h with h'
  exact h'.symm

lemma loadLAF_not_ok (input : List ℕ)
    (h : ∀ d, loadLAF input ≠ Except.ok d) :
    loadLAF input = Except.error FormatError.err := by
  rcases hres : loadLAF input with e | d
  · cases e; rfl
  · exact absurd hres (h d)

/-- C3: a stream whose 9 magic bytes differ from the literal, or whose
quality code (byte 13) is outside 0-3, or whose mode code (byte 14) is
outside 0-1, or whose little-endian track count (bytes 15-18) exceeds 256,
or which is in Objects mode (mode code 1) with a sample rate that is not a
multiple of 48, is rejected by the parser with `FormatError`.  The parser
(`loadLAF`) consumes only header, metadata and footer bytes — no chunk data
is ever read by it. -/
theorem loadLAF_rejects_malformed :
    (∀ input : List ℕ, input.take 9 ≠ magicBytes →
      loadLAF input = Except.error FormatError.err) ∧
    (∀ input : List ℕ, input.getD 13 0 ≠ 0 → input.getD 13 0 ≠ 1 →
      input.getD 13 0 ≠ 2 → input.getD 13 0 ≠ 3 →
      loadLAF input = Except.error FormatError.err) ∧
    (∀ input : List ℕ, input.getD 14 0 ≠ 0 → input.getD 14 0 ≠ 1 →
      loadLAF input = Except.error FormatError.err) ∧
    (∀ input : List ℕ, 256 < leBytes ((input.drop 15).take 4) →
      loadLAF input = Except.error FormatError.err) ∧
    (∀ input : List ℕ, input.getD 14 0 = 1 →
      leBytes ((input.drop
          (19 + leBytes ((input.drop 15).take 4) * 9)).take 4) %
        FramesPerPos ≠ 0 →
      loadLAF input = Except.error FormatError.err) := by
  refine ⟨?_, ?_, ?_, ?_, ?_⟩
  · intro input hmagic
    apply loadLAF_not_ok
    intro d hres
    exact hmagic (loadLAF_ok_facts input d hres).2.1
  · intro input h0 h1 h2 h3
    apply loadLAF_not_ok
    intro d hres
    have hq := (loadLAF_ok_facts input d hres).2.2.2.2.1
    rcases parseQuality_ok_byte _ _ hq with h | h | h | h <;> omega
  · intro input h0 h1
    apply loadLAF_not_ok
    intro d hres
    have hm := (loadLAF_ok_facts input d hres).2.2.2.2.2.1
    rcases parseMode_ok_byte _ _ hm with h | h <;> omega
  · intro input hcnt
    apply loadLAF_not_ok
    intro d hres
    obtain ⟨-, -, -, -, -, -, hN, hle, -⟩ := loadLAF_ok_facts input d hres
    omega
  · intro input hmode hrate
    apply loadLAF_not_ok
    intro d hres
    obtain ⟨-, -, -, -, -, hm, hN, -, -, -, hrt, -, hlast⟩ :=
      loadLAF_ok_facts input d hres
    rw [hmode] at hm
    have hobj := parseMode_one _ hm
    rcases hlast with hch | hok
    · rw [hobj] at hch
      cases hch
    · rw [hrt, hN] at hok
      exact hrate hok

/-- Witness for C3: five concrete malformed streams, one per rejection
condition (bad magic; quality 4; mode 2; track count 257; Objects mode with
sample rate 47). -/
theorem loadLAF_rejects_malformed_witness :
    (([0] : List ℕ).take 9 ≠ magicBytes ∧
      loadLAF [0] = Except.error FormatError.err) ∧
    ((magicBytes ++ headBytes ++ [4]).getD 13 0 = 4 ∧
      loadLAF (magicBytes ++ headBytes ++ [4]) =
        Except.error FormatError.err) ∧
    ((magicBytes ++ headBytes ++ [1, 2]).getD 14 0 = 2 ∧
      loadLAF (magicBytes ++ headBytes ++ [1, 2]) =
        Except.error FormatError.err) ∧
    (leBytes (((magicBytes ++ headBytes ++ [1, 1, 1, 1, 0, 0]).drop
        15).take 4) = 257 ∧
      loadLAF (magicBytes ++ headBytes ++ [1, 1, 1, 1, 0, 0]) =
        Except.error FormatError.err) ∧
    ((magicBytes ++ headBytes ++ [1, 1, 2, 0, 0, 0,
        0, 0, 0, 0, 0, 0, 0, 0, 0,
        0, 0, 192, 127, 0, 0, 0, 0, 0,
        47, 0, 0, 0, 48, 0, 0, 0, 0, 0, 0, 0]).getD 14 0 = 1 ∧
      loadLAF (magicBytes ++ headBytes ++ [1, 1, 2, 0, 0, 0,
        0, 0, 0, 0, 0, 0, 0, 0, 0,
        0, 0, 192, 127, 0, 0, 0, 0, 0,
        47, 0, 0, 0, 48, 0, 0, 0, 0, 0, 0, 0]) =
        Except.error FormatError.err) := by
  refine ⟨⟨by decide, ?_⟩, ⟨by decide, ?_⟩, ⟨by decide, ?_⟩,
    ⟨by decide, ?_⟩, ⟨by decide, ?_⟩⟩
  · exact loadLAF_rejects_malformed.1 [0] (by decide)
  · exact loadLAF_rejects_malformed.2.1 (magicBytes ++ headBytes ++ [4])
      (by decide) (by decide) (by decide) (by decide)
  · exact loadLAF_rejects_malformed.2.2.1 (magicBytes ++ headBytes ++ [1, 2])
      (by decide) (by decide)
  · exact loadLAF_rejects_malformed.2.2.2.1
      (magicBytes ++ headBytes ++ [1, 1, 1, 1, 0, 0]) (by decide)
  · exact loadLAF_rejects_malformed.2.2.2.2
      (magicBytes ++ headBytes ++ [1, 1, 2, 0, 0, 0,
        0, 0, 0, 0, 0, 0, 0, 0, 0,
        0, 0, 192, 127, 0, 0, 0, 0, 0,
        47, 0, 0, 0, 48, 0, 0, 0, 0, 0, 0, 0]) (by decide) (by decide)

/-- The metadata loop classifies every record as exactly one of audio or
position, so the final counts sum to the initial counts plus the number of
records processed. -/
lemma parseTracks_counts (mode : Mode) (meta : List ℕ) :
    ∀ n i a p A P, parseTracks mode meta i a p n = Except.ok (A, P) →
      A + P = a + p + n := by
  intro n
  induction n with
  | zero =>
    intro i a p A P h
    injection h with h'
    injection h' with h1 h2
    omega
  | succ n ih =>
    intro i a p A P h
    rw [parseTracks] at h
    rcases hcl : classifyRecord mode i p (leBytes ((meta.drop (9 * i)).take 4))
        (leBytes ((meta.drop (9 * i + 4)).take 4)) with e | pos
    all_goals rw [hcl] at h
    · cases h
    · cases pos
      · have := ih (i + 1) (a + 1) p A P h
        omega
      · have := ih (i + 1) a (p + 1) A P h
        omega

/-- C5: an Objects-mode parse succeeds only when there is at least one audio
channel, at least one position track, and the number of position tracks is
exactly `⌈numChannels/16⌉`; in particular (by contraposition) every
Objects-mode stream whose counts violate this — including zero position
tracks or zero audio tracks — is rejected, and every parser rejection is the
single `FormatError`. -/
theorem loadLAF_objects_postracks :
    (∀ input d, loadLAF input = Except.ok d → d.mode = Mode.objects →
      1 ≤ d.numChannels ∧ 1 ≤ d.numPosTracks ∧
      d.numPosTracks = (d.numChannels + 15) / 16) ∧
    (∀ input e, loadLAF input = Except.error e → e = FormatError.err) := by
  constructor
  · intro input d hres hobj
    obtain ⟨-, -, -, -, -, -, -, hle, hp, hchk, -, -, -⟩ :=
      loadLAF_ok_facts input d hres
    have hsum := parseTracks_counts d.mode _ _ _ _ _ _ _ hp
    rcases hchk with hch | hok
    · rw [hobj] at hch
      cases hch
    · unfold U64 at hok
      omega
  · intro input e _
    cases e
    rfl

/-- Witness for C5: a complete well-formed Objects-mode stream — 2 tracks
(one audio, one position with NaN elevation and zero azimuth), rate 48 —
parses successfully and satisfies the invariant `1 = ⌈1/16⌉`. -/
theorem loadLAF_objects_postracks_witness :
    loadLAF (magicBytes ++ headBytes ++ [1, 1, 2, 0, 0, 0,
        0, 0, 0, 0, 0, 0, 0, 0, 0,
        0, 0, 192, 127, 0, 0, 0, 0, 0,
        48, 0, 0, 0, 48, 0, 0, 0, 0, 0, 0, 0]) =
      Except.ok ⟨Quality.s16, Mode.objects, 2, 1, 1, 48, 48⟩ ∧
    (1 ≤ (1 : ℕ) ∧ 1 ≤ (1 : ℕ) ∧ (1 : ℕ) = (1 + 15) / 16) := by
  have hok : loadLAF (magicBytes ++ headBytes ++ [1, 1, 2, 0, 0, 0,
      0, 0, 0, 0, 0, 0, 0, 0, 0,
      0, 0, 192, 127, 0, 0, 0, 0, 0,
      48, 0, 0, 0, 48, 0, 0, 0, 0, 0, 0, 0]) =
      Except.ok ⟨Quality.s16, Mode.objects, 2, 1, 1, 48, 48⟩ := by rfl
  exact ⟨hok, loadLAF_objects_postracks.1 _ _ hok rfl⟩

end Allafplay

